import Mathlib

/-
Verification of the longitudinal segmentation metrics engine
(src/segmentation/synthseg/calculate_session_metrics.py and
src/segmentation/synthseg/compute_consecutive_metrics.py).

Shallow embedding conventions:
- pandas DataFrame.to_csv output is modelled as a list of lines, each line
  being either the column header or one data row;
- Python dicts (insertion ordered) are modelled as association lists where
  updating an existing key keeps its position and a new key is appended;
- numpy 3D arrays are modelled as nested lists of integers;
- float NaN results are modelled as Option.none.
-/

namespace BrainMri

/-- A line of the result CSV file: either the column header or a data row
carrying an abstract row payload. -/
inductive CsvLine (α : Type) : Type
  | header : CsvLine α
  | data : α → CsvLine α
  deriving DecidableEq

/-- State of the incremental result writer in calculate_session_metrics:
the destination file content and the header_written flag
(calculate_session_metrics.py lines 218 and 220-226). -/
structure WriterState (α : Type) : Type where
  file : List (CsvLine α)
  header_written : Bool
  deriving DecidableEq

/-- Embedding of the closure writer(rows) in calculate_session_metrics.py
lines 220-226: an empty batch returns immediately; otherwise the rows are
appended, preceded by the header when header_written is still false, and
the flag is set to true. -/
def writer {α : Type} (st : WriterState α) (rows : List α) : WriterState α :=
  if rows.isEmpty then st
  else
    { file := st.file ++ (if st.header_written then [] else [CsvLine.header])
        ++ rows.map CsvLine.data,
      header_written := true }

/-- Folding a whole run of batches through the writer. -/
def runWriter {α : Type} (st : WriterState α) (batches : List (List α)) :
    WriterState α :=
  batches.foldl writer st

/-- Writer state at the start of a run against a fresh destination:
results_path.exists() is false, so header_written starts false and the file
has no lines (calculate_session_metrics.py line 218). -/
def freshState (α : Type) : WriterState α := ⟨[], false⟩

/-- Writer state at the start of a later run over an existing destination:
results_path.exists() is true, so header_written starts true. -/
def resumeState {α : Type} (file : List (CsvLine α)) : WriterState α :=
  ⟨file, true⟩

/-- Number of header lines in a file. -/
def headerCount {α : Type} (file : List (CsvLine α)) : Nat :=
  (file.filter (fun l => match l with | CsvLine.header => true | _ => false)).length

/-- Number of data rows in a file. -/
def dataCount {α : Type} (file : List (CsvLine α)) : Nat :=
  (file.filter (fun l => match l with | CsvLine.data _ => true | _ => false)).length

/-- Invariant tying the header_written flag to the file content during a
run started from a fresh destination. -/
def WriterInv {α : Type} (st : WriterState α) : Prop :=
  (st.header_written = false → st.file = []) ∧
  (st.header_written = true →
    headerCount st.file = 1 ∧ st.file.head? = some CsvLine.header)

/-
Segmentation Index: the loop in calculate_session_metrics.py lines 204-210
(and the identical loop in compute_consecutive_metrics.py lines 139-141)
stores records with subject_files.setdefault(subject, {})[session] = path.
Python dicts are insertion ordered and assignment to an existing key
replaces its value in place; association lists with in-place update model
this exactly.
-/

/-- Update key k to value v in an insertion-ordered association list:
an existing key keeps its position, a new key is appended at the end.
This is Python dict assignment d[k] = v. -/
def setAssoc {α : Type} : List (String × α) → String → α → List (String × α)
  | [], k, v => [(k, v)]
  | (k1, v1) :: rest, k, v =>
    if k1 = k then (k1, v) :: rest else (k1, v1) :: setAssoc rest k v

/-- Python dict lookup d.get(k). -/
def getAssoc {α : Type} : List (String × α) → String → Option α
  | [], _ => none
  | (k1, v1) :: rest, k => if k1 = k then some v1 else getAssoc rest k

/-- One discovered segmentation record: (subject, session, path). -/
abbrev SegRecord : Type := String × String × String

/-- The nested mapping subject to (session to path). -/
abbrev SubjectIndex : Type := List (String × List (String × String))

/-- One iteration of the indexing loop:
subject_files.setdefault(subject, \x7b\x7d)[session] = dkt_file. -/
def addRecord (idx : SubjectIndex) (r : SegRecord) : SubjectIndex :=
  setAssoc idx r.1 (setAssoc ((getAssoc idx r.1).getD []) r.2.1 r.2.2)

/-- The whole indexing loop over the discovered files in traversal order
(calculate_session_metrics.py lines 204-210). -/
def buildSubjectFiles (records : List SegRecord) : SubjectIndex :=
  records.foldl addRecord []

/-- Path stored in the index for a given subject and session. -/
def indexLookup (idx : SubjectIndex) (subj sess : String) : Option String :=
  (getAssoc idx subj).bind (fun m => getAssoc m sess)

/-- Path of the last record in traversal order resolving to the given
subject and session. -/
def lastPathFor : List SegRecord → String → String → Option String
  | [], _, _ => none
  | r :: rest, subj, sess =>
    match lastPathFor rest subj sess with
    | some p => some p
    | none => if r.1 = subj ∧ r.2.1 = sess then some r.2.2 else none

/-
Identity Resolver: parse_subject_session in calculate_session_metrics.py
lines 32-45, plus the flat-filename pattern branch of find_segmentations in
compute_consecutive_metrics.py line 84.
-/

/-- Python str.startswith(p): the first len(p) characters equal p. -/
def pyStartsWith (s p : String) : Bool :=
  decide (s.data.take p.length = p.data)

/-- Embedding of parse_subject_session (calculate_session_metrics.py lines
32-45): a run directory starting with sub- keeps its first underscore
segment as subject; one starting with ses- is pooled under the fixed
synthetic subject simon; otherwise the part before .long. is the subject.
The session is always the full run-directory name. -/
def parse_subject_session (run_dir : String) : String × String :=
  if pyStartsWith run_dir "sub-" then
    ((run_dir.splitOn "_").headD run_dir, run_dir)
  else if pyStartsWith run_dir "ses-" then
    ("simon", run_dir)
  else
    ((run_dir.splitOn ".long.").headD run_dir, run_dir)

/-- Embedding of the anchored pattern
(sub-[^_]+)_(ses-[^_]+)_aparcDKT\+aseg\.mgz used with re.match in
compute_consecutive_metrics.py line 84. Each [^_]+ is a maximal non-empty
run of non-underscore characters (the underscore that follows makes the
greedy match unambiguous, and the trailing literal has no underscore);
re.match anchors the start only, so trailing characters may remain. -/
def matchFlat (name : String) : Option (String × String) :=
  let cs := name.data
  if cs.take 4 = "sub-".data then
    let rest := cs.drop 4
    let a := rest.takeWhile (fun c => c != '_')
    let rest1 := rest.dropWhile (fun c => c != '_')
    if a.isEmpty then none
    else
      match rest1 with
      | '_' :: rest2 =>
        if rest2.take 4 = "ses-".data then
          let rest3 := rest2.drop 4
          let b := rest3.takeWhile (fun c => c != '_')
          let rest4 := rest3.dropWhile (fun c => c != '_')
          if b.isEmpty then none
          else
            match rest4 with
            | '_' :: rest5 =>
              if rest5.take 17 = "aparcDKT+aseg.mgz".data then
                some (String.mk ("sub-".data ++ a), String.mk ("ses-".data ++ b))
              else none
            | _ => none
        else none
      | _ => none
  else none

/-
Pair Selector: session_sort_key and the consecutive-pair loop in
compute_consecutive_metrics.py lines 93-102 and 144-146, and the all-pairs
loop in calculate_session_metrics.py lines 160-161.
-/

/-- Numeric value of a list of decimal digit characters, as Python int(). -/
def digitsVal (ds : List Char) : Nat :=
  ds.foldl (fun n c => 10 * n + (c.toNat - '0'.toNat)) 0

/-- Model of re.search for the pattern ses-([0-9]+): scan positions left to
right; at the first position where the literal ses- is followed by at least
one decimal digit, capture the maximal digit run and return its value. -/
def sesNumFrom : List Char → Option Nat
  | [] => none
  | c :: rest =>
    if (c :: rest).take 4 = "ses-".data then
      let ds := ((c :: rest).drop 4).takeWhile (fun d => d.isDigit)
      if ds.isEmpty then sesNumFrom rest else some (digitsVal ds)
    else sesNumFrom rest

/-- Search for a ses-digits token anywhere in the session identifier. -/
def findSesNum (s : String) : Option Nat :=
  sesNumFrom s.data

/-- A session sort key: bucket (0, int) for identifiers with a numeric
token, bucket (1, string) otherwise, as the Python tuples returned by
session_sort_key. -/
abbrev SessKey : Type := Nat ⊕ String

/-- Embedding of session_sort_key (compute_consecutive_metrics.py lines
93-102). The ValueError branch never fires because a run of decimal digits
always parses. -/
def session_sort_key (s : String) : SessKey :=
  match findSesNum s with
  | some n => Sum.inl n
  | none => Sum.inr s

/-- Python comparison on the key tuples (0, int) and (1, string): the
first component decides across buckets, the second within a bucket. -/
def keyLE : SessKey → SessKey → Prop
  | Sum.inl m, Sum.inl n => m ≤ n
  | Sum.inl _, Sum.inr _ => True
  | Sum.inr _, Sum.inl _ => False
  | Sum.inr a, Sum.inr b => a ≤ b

instance : DecidableRel keyLE := fun a b =>
  match a, b with
  | Sum.inl m, Sum.inl n => inferInstanceAs (Decidable (m ≤ n))
  | Sum.inl _, Sum.inr _ => Decidable.isTrue trivial
  | Sum.inr _, Sum.inl _ => Decidable.isFalse (fun h => h)
  | Sum.inr a, Sum.inr b => inferInstanceAs (Decidable (a ≤ b))

/-- Comparison of sessions through their sort keys, as used by
sorted(sessions.keys(), key=session_sort_key). -/
def sessRel (a b : String) : Prop :=
  keyLE (session_sort_key a) (session_sort_key b)

instance : DecidableRel sessRel := fun a b =>
  inferInstanceAs (Decidable (keyLE (session_sort_key a) (session_sort_key b)))

/-- Python sorted(list, key=session_sort_key): a stable sort on the keys.
List.insertionSort with a non-strict relation is stable, so it models the
result of the Python sort exactly. -/
def sortSessions (l : List String) : List String :=
  List.insertionSort sessRel l

/-- Python sorted(list) on strings (default lexicographic order), as in
process_subject (calculate_session_metrics.py line 160). -/
def sortedStrings (l : List String) : List String :=
  List.insertionSort (fun a b : String => a ≤ b) l

/-- itertools.combinations(l, 2) keeping order of appearance. -/
def combinations2 {α : Type} : List α → List (α × α)
  | [] => []
  | x :: xs => (xs.map (fun y => (x, y))) ++ combinations2 xs

/-- itertools.pairwise(l): adjacent pairs. -/
def pairwiseL {α : Type} : List α → List (α × α)
  | x :: y :: rest => (x, y) :: pairwiseL (y :: rest)
  | _ => []

/-- The all-pairs policy of process_subject (calculate_session_metrics.py
lines 160-161): sort the discovered sessions, then all combinations. -/
def allPairs (sessions : List String) : List (String × String) :=
  combinations2 (sortedStrings sessions)

/-- The consecutive-only policy of main (compute_consecutive_metrics.py
lines 144-146): sort by session_sort_key, then adjacent pairs. -/
def consecutivePairs (sessions : List String) : List (String × String) :=
  pairwiseL (sortSessions sessions)

/-
process_subject buffering (calculate_session_metrics.py lines 158-178):
per pair, buffer.extend(session_results); then, if len(buffer) >=
chunk_size, the buffer is flushed through the writer and cleared; after the
loop a non-empty remainder is flushed. Rows are abstract; each element of
pairResults is the row list one session pair produces.
-/

/-- One iteration of the pair loop in process_subject: extend the buffer
with the rows of the pair, flush it when it reaches chunk_size. The state
is (buffer, chunks flushed so far). -/
def subjectStep {α : Type} (chunk_size : Nat)
    (st : List α × List (List α)) (pairRows : List α) :
    List α × List (List α) :=
  if chunk_size ≤ (st.1 ++ pairRows).length then ([], st.2 ++ [st.1 ++ pairRows])
  else (st.1 ++ pairRows, st.2)

/-- Embedding of process_subject: fold the pair loop from an empty buffer,
then flush a non-empty remainder. Returns the final buffer (always empty)
and the flushed chunks in order. -/
def process_subject {α : Type} (chunk_size : Nat)
    (pairResults : List (List α)) : List α × List (List α) :=
  let st := pairResults.foldl (subjectStep chunk_size) ([], [])
  if st.1.isEmpty then st else ([], st.2 ++ [st.1])

/-- Buffer sizes observed immediately after buffer.extend(session_results),
before the flush check, for each pair iteration. -/
def bufferPeaks {α : Type} (chunk_size : Nat) :
    List α → List (List α) → List Nat
  | _, [] => []
  | buf, rs :: rest =>
    (buf ++ rs).length ::
      bufferPeaks chunk_size
        (if chunk_size ≤ (buf ++ rs).length then [] else buf ++ rs) rest

/-- Buffer sizes observed at the end of each pair iteration, after the
conditional flush. -/
def bufferEnds {α : Type} (chunk_size : Nat) :
    List α → List (List α) → List Nat
  | _, [] => []
  | buf, rs :: rest =>
    (if chunk_size ≤ (buf ++ rs).length then ([] : List α) else buf ++ rs).length ::
      bufferEnds chunk_size
        (if chunk_size ≤ (buf ++ rs).length then [] else buf ++ rs) rest

/-- Largest number of rows a single pair produces. -/
def maxRowsPerPair {α : Type} (pairResults : List (List α)) : Nat :=
  (pairResults.map List.length).foldr Nat.max 0

/-
Per-Label Metric Calculator: compute_metrics in
compute_consecutive_metrics.py lines 105-127, compute_dice_coefficient in
calculate_session_metrics.py lines 99-105, and the surface machinery
compute_surface_distances / compute_surface_dice in
calculate_session_metrics.py lines 48-97. A numpy 3D integer array is a
nested list; a boolean mask is represented by the pair (volume, label);
surface distances carry squared Euclidean distances (the square root is
monotone, so every comparison and every zero value is preserved).
-/

/-- A 3D label volume, as a nested list of integer label codes. -/
abbrev Vol : Type := List (List (List Int))

/-- A voxel coordinate. -/
abbrev P3 : Type := Int × Int × Int

/-- Array access with bounds checking: the value stored at a coordinate,
or none outside the array. -/
def cellAt (v : Vol) (p : P3) : Option Int :=
  if 0 ≤ p.1 ∧ 0 ≤ p.2.1 ∧ 0 ≤ p.2.2 then
    match v[p.1.toNat]? with
    | none => none
    | some plane =>
      match plane[p.2.1.toNat]? with
      | none => none
      | some row => row[p.2.2.toNat]?
  else none

/-- The binary mask data == label at one coordinate; false outside the
array (scipy binary_erosion uses border value 0). -/
def maskAt (v : Vol) (lbl : Int) (p : P3) : Bool :=
  cellAt v p == some lbl

/-- All in-bounds coordinates of the array, in index order. -/
def gridPoints (v : Vol) : List P3 :=
  (List.range v.length).flatMap (fun (i : Nat) =>
    (List.range (v.getD i []).length).flatMap (fun (j : Nat) =>
      (List.range ((v.getD i []).getD j []).length).map (fun (k : Nat) =>
        ((i : Int), (j : Int), (k : Int)))))

/-- np.sum of a mask: the number of voxels carrying the label. -/
def countLabel (v : Vol) (lbl : Int) : Nat :=
  ((gridPoints v).filter (maskAt v lbl)).length

/-- np.sum of m1 & m2: voxels carrying the label in both volumes. -/
def countInter (v1 v2 : Vol) (lbl : Int) : Nat :=
  ((gridPoints v1).filter (fun p => maskAt v1 lbl p && maskAt v2 lbl p)).length

/-- The numpy array shape of a nested-list volume. -/
def shape3 (v : Vol) : Nat × Nat × Nat :=
  (v.length, (v.getD 0 []).length, ((v.getD 0 []).getD 0 []).length)

/-- The six face neighbours of a voxel (the default scipy
generate_binary_structure(3, 1) element used by binary_erosion). -/
def neighbors6 (p : P3) : List P3 :=
  [(p.1 - 1, p.2.1, p.2.2), (p.1 + 1, p.2.1, p.2.2),
   (p.1, p.2.1 - 1, p.2.2), (p.1, p.2.1 + 1, p.2.2),
   (p.1, p.2.1, p.2.2 - 1), (p.1, p.2.1, p.2.2 + 1)]

/-- A voxel is on the surface iff it is in the mask but removed by the
one-voxel binary erosion: binary_erosion(mask) != mask at this voxel
(calculate_session_metrics.py lines 52-54). -/
def surfaceAt (m : P3 → Bool) (p : P3) : Bool :=
  m p && !((neighbors6 p).all m)

/-- Coordinates of the surface voxels of the mask (volume, label), in the
np.where index order. -/
def surfacePoints (v : Vol) (lbl : Int) : List P3 :=
  (gridPoints v).filter (surfaceAt (maskAt v lbl))

/-- Squared Euclidean distance between two voxels in physical units, each
axis difference scaled by the voxel spacing
(calculate_session_metrics.py lines 63-71). -/
def sqDist (sp : ℚ × ℚ × ℚ) (p q : P3) : ℚ :=
  (((p.1 - q.1 : ℤ) : ℚ) * sp.1) ^ 2 +
  (((p.2.1 - q.2.1 : ℤ) : ℚ) * sp.2.1) ^ 2 +
  (((p.2.2 - q.2.2 : ℤ) : ℚ) * sp.2.2) ^ 2

/-- Left fold of min, as np.min over a nonempty axis. -/
def listMinD : ℚ → List ℚ → ℚ
  | x, [] => x
  | x, y :: ys => listMinD (min x y) ys

/-- Minimum squared distance from a voxel to a set of voxels
(np.min(distances_matrix, axis)); 0 on an empty set (unreachable: the
caller checks emptiness first). -/
def minSqDist (sp : ℚ × ℚ × ℚ) (pts : List P3) (p : P3) : ℚ :=
  match pts.map (sqDist sp p) with
  | [] => 0
  | d :: ds => listMinD d ds

/-- Result of compute_surface_distances: both directed distance lists
(surfel areas are all 1 and are represented by the list lengths),
calculate_session_metrics.py lines 76-81. -/
structure SurfaceDistances : Type where
  distances_gt_to_pred : List ℚ
  distances_pred_to_gt : List ℚ
  deriving DecidableEq

/-- Embedding of compute_surface_distances (calculate_session_metrics.py
lines 48-81) for the masks (v1, lbl) and (v2, lbl): none when either mask
has no surface voxels, otherwise both directed lists of minimum squared
surface distances. -/
def compute_surface_distances (v1 v2 : Vol) (lbl : Int) (sp : ℚ × ℚ × ℚ) :
    Option SurfaceDistances :=
  if surfacePoints v1 lbl = [] ∨ surfacePoints v2 lbl = [] then none
  else some
    ⟨(surfacePoints v1 lbl).map (minSqDist sp (surfacePoints v2 lbl)),
     (surfacePoints v2 lbl).map (minSqDist sp (surfacePoints v1 lbl))⟩

/-- Embedding of compute_surface_dice (calculate_session_metrics.py lines
83-97) at a squared tolerance: 0 for the none sentinel, otherwise overlap
counts over total surface element counts. -/
def compute_surface_dice (sd : Option SurfaceDistances) (tolSq : ℚ) : ℚ :=
  match sd with
  | none => 0
  | some s =>
    (((s.distances_gt_to_pred.filter (fun d => decide (d ≤ tolSq))).length : ℚ) +
      ((s.distances_pred_to_gt.filter (fun d => decide (d ≤ tolSq))).length : ℚ)) /
    ((s.distances_gt_to_pred.length : ℚ) + (s.distances_pred_to_gt.length : ℚ))

/-- Modelled from the spec: compute_robust_hausdorff is provided by the
external surface-distance package and is not part of this repository;
section 4.4 of the specification defines HD95 as the 95th percentile of
the pooled surface-to-surface distance distribution, with a defined
neutral sentinel when surfaces are empty. The percentile of a sorted list
of n pooled (squared) distances is taken at index ceil(0.95 n) - 1. -/
def compute_robust_hausdorff (sd : Option SurfaceDistances) : ℚ :=
  match sd with
  | none => 0
  | some s =>
    (List.insertionSort (fun a b : ℚ => a ≤ b)
        (s.distances_gt_to_pred ++ s.distances_pred_to_gt)).getD
      ((19 * (s.distances_gt_to_pred.length + s.distances_pred_to_gt.length)
        + 19) / 20 - 1) 0

/-- One output row of compute_metrics (label metadata fields omitted: they
are joined later by the caller and carry no metric content). -/
structure MetricRow : Type where
  label : Int
  volume1 : ℚ
  volume2 : ℚ
  volume_diff : ℚ
  dice : Option ℚ
  surface_dice : ℚ
  hd95 : ℚ
  deriving DecidableEq

/-- The per-label row computed by the loop body of compute_metrics
(compute_consecutive_metrics.py lines 112-126). The dice expression is
the inline conditional of line 123, with none for np.nan. -/
def metricRowFor (v1 v2 : Vol) (sp : ℚ × ℚ × ℚ) (lbl : Int) : MetricRow :=
  { label := lbl,
    volume1 := (countLabel v1 lbl : ℚ) * (sp.1 * sp.2.1 * sp.2.2),
    volume2 := (countLabel v2 lbl : ℚ) * (sp.1 * sp.2.1 * sp.2.2),
    volume_diff := (countLabel v2 lbl : ℚ) * (sp.1 * sp.2.1 * sp.2.2) -
      (countLabel v1 lbl : ℚ) * (sp.1 * sp.2.1 * sp.2.2),
    dice :=
      if countLabel v1 lbl + countLabel v2 lbl = 0 then none
      else some ((2 * (countInter v1 v2 lbl : ℚ)) /
        ((countLabel v1 lbl : ℚ) + (countLabel v2 lbl : ℚ))),
    surface_dice := compute_surface_dice
      (compute_surface_distances v1 v2 lbl sp) 1,
    hd95 := compute_robust_hausdorff (compute_surface_distances v1 v2 lbl sp) }

/-- Embedding of compute_metrics (compute_consecutive_metrics.py lines
105-127): none on an array shape mismatch, otherwise one row per
requested label. -/
def compute_metrics (v1 v2 : Vol) (sp : ℚ × ℚ × ℚ) (labels : List Int) :
    Option (List MetricRow) :=
  if shape3 v1 ≠ shape3 v2 then none
  else some (labels.map (metricRowFor v1 v2 sp))

/-- The pair loop of main (compute_consecutive_metrics.py lines 146-157):
a none result is skipped (the caller logs and continues), other results
are appended in order. -/
def processPairs (pairs : List (Vol × Vol)) (sp : ℚ × ℚ × ℚ)
    (labels : List Int) : List MetricRow :=
  pairs.foldl (fun rows pr =>
    match compute_metrics pr.1 pr.2 sp labels with
    | none => rows
    | some res => rows ++ res) []

/-- Embedding of compute_dice_coefficient (calculate_session_metrics.py
lines 99-105) on flattened boolean masks; none models the np.nan
returned when both masks are empty. -/
def compute_dice_coefficient (mask_gt mask_pred : List Bool) : Option ℚ :=
  if mask_gt.count true + mask_pred.count true = 0 then none
  else some ((2 * ((List.zipWith and mask_gt mask_pred).count true : ℚ)) /
    ((mask_gt.count true : ℚ) + (mask_pred.count true : ℚ)))

/-- All label values stored in a volume, in index order. -/
def volValues (v : Vol) : List Int :=
  v.flatMap (fun plane => plane.flatMap (fun row => row))

/-- np.unique of the concatenation of two volumes with the background
label 0 removed (calculate_session_metrics.py lines 120-121): the sorted
list of distinct non-zero values. -/
def uniqueLabels (v1 v2 : Vol) : List Int :=
  List.insertionSort (fun a b : Int => a ≤ b)
    (((volValues v1 ++ volValues v2).dedup).filter (fun x => decide (x ≠ 0)))

/-- Embedding of process_session_pair (calculate_session_metrics.py lines
107-156). The source performs no shape check: with mismatched array
shapes, np.concatenate at line 120 (trailing dimensions), the elementwise
mask operations, or the surface-distance calls (equal shapes required)
raise, and no try/except exists anywhere on the call path through
process_subject and calculate_session_metrics, so the exception aborts
the whole run; the Except.error value models that uncaught exception.
With equal shapes, one row per unique non-zero label is produced; the
per-label metric content coincides with metricRowFor (the dice formula of
compute_dice_coefficient on the label masks, and the shared surface
machinery). -/
def process_session_pair (v1 v2 : Vol) (sp : ℚ × ℚ × ℚ) :
    Except String (List MetricRow) :=
  if shape3 v1 ≠ shape3 v2 then Except.error "shape mismatch raises"
  else Except.ok ((uniqueLabels v1 v2).map (metricRowFor v1 v2 sp))

/-- The pair loop of process_subject (calculate_session_metrics.py lines
165-169) with Python exception propagation: the first raised exception
stops the loop, the remaining pairs are never processed, and the error
escapes to the top of the run. -/
def processSessionPairsGo (sp : ℚ × ℚ × ℚ) :
    List MetricRow → List (Vol × Vol) → Except String (List MetricRow)
  | acc, [] => Except.ok acc
  | acc, pr :: rest =>
    match process_session_pair pr.1 pr.2 sp with
    | Except.error e => Except.error e
    | Except.ok rows => processSessionPairsGo sp (acc ++ rows) rest

/-- Running the all-pairs pipeline loop over a list of session pairs. -/
def processPairsAllPairs (pairs : List (Vol × Vol)) (sp : ℚ × ℚ × ℚ) :
    Except String (List MetricRow) :=
  processSessionPairsGo sp [] pairs

/-- Embedding of the subject and session derivation of find_segmentations
(compute_consecutive_metrics.py lines 72-86): the flat-filename pattern,
when it matches, overrides the directory-based derivation; otherwise a
run directory starting with ses- is pooled under the fixed subject
constant of line 78, one starting with sub- keeps its part before _ses-,
and anything else uses the parent directory name. -/
def find_segmentations_identity (run_dir parent_dir name : String) :
    String × String :=
  match matchFlat name with
  | some m => m
  | none =>
    if pyStartsWith run_dir "ses-" then
      ("long.simonBase_all_2025", run_dir)
    else if pyStartsWith run_dir "sub-" then
      ((run_dir.splitOn "_ses-").headD run_dir, run_dir)
    else (parent_dir, run_dir)

theorem headerCount_append {α : Type} (a b : List (CsvLine α)) :
    headerCount (a ++ b) = headerCount a + headerCount b := by
  simp [headerCount, List.filter_append]

theorem dataCount_append {α : Type} (a b : List (CsvLine α)) :
    dataCount (a ++ b) = dataCount a + dataCount b := by
  simp [dataCount, List.filter_append]

theorem headerCount_map_data {α : Type} (rows : List α) :
    headerCount (rows.map CsvLine.data) = 0 := by
  induction rows with
  | nil => rfl
  | cons r rs ih => simp [headerCount, List.filter] at ih ⊢

theorem dataCount_map_data {α : Type} (rows : List α) :
    dataCount (rows.map CsvLine.data) = rows.length := by
  induction rows with
  | nil => rfl
  | cons r rs ih => simpa [dataCount, List.filter] using ih

theorem writer_preserves_inv {α : Type} (st : WriterState α) (rows : List α)
    (h : WriterInv st) : WriterInv (writer st rows) := by
  by_cases hr : rows.isEmpty
  · simpa [writer, hr] using h
  · obtain ⟨h0, h1⟩ := h
    cases hw : st.header_written with
    | false =>
      have hfile : st.file = [] := h0 hw
      constructor
      · intro hcontra
        simp [writer, hr, hw] at hcontra
      · intro _
        constructor
        · simp [writer, hr, hw, hfile, headerCount_append, headerCount_map_data,
            headerCount]
        · simp [writer, hr, hw, hfile]
    | true =>
      obtain ⟨hc, hh⟩ := h1 hw
      constructor
      · intro hcontra
        simp [writer, hr, hw] at hcontra
      · intro _
        constructor
        · simp [writer, hr, hw]
          rw [headerCount_append, headerCount_map_data, hc]
        · have : st.file ≠ [] := by
            intro he
            rw [he] at hh
            simp at hh
          cases hf : st.file with
          | nil => exact absurd hf this
          | cons x xs =>
            rw [hf] at hh
            simp at hh
            simp [writer, hr, hw, hf, hh]

theorem runWriter_preserves_inv {α : Type} (batches : List (List α)) :
    ∀ st : WriterState α, WriterInv st → WriterInv (runWriter st batches) := by
  induction batches with
  | nil => intro st h; exact h
  | cons b bs ih =>
    intro st h
    exact ih (writer st b) (writer_preserves_inv st b h)

theorem runWriter_flag {α : Type} (batches : List (List α)) :
    ∀ st : WriterState α,
      (runWriter st batches).header_written =
        (st.header_written || batches.any (fun r => !r.isEmpty)) := by
  induction batches with
  | nil => intro st; simp [runWriter]
  | cons b bs ih =>
    intro st
    show (runWriter (writer st b) bs).header_written = _
    rw [ih]
    by_cases hb : b.isEmpty
    · simp [writer, hb]
    · simp [writer, hb]

theorem runWriter_dataCount {α : Type} (batches : List (List α)) :
    ∀ st : WriterState α,
      dataCount (runWriter st batches).file =
        dataCount st.file + (batches.map List.length).sum := by
  induction batches with
  | nil => intro st; simp [runWriter]
  | cons b bs ih =>
    intro st
    show dataCount (runWriter (writer st b) bs).file = _
    rw [ih]
    by_cases hb : b.isEmpty
    · have : b = [] := List.isEmpty_iff.mp hb
      simp [writer, hb, this]
    · have hfile : (writer st b).file =
          st.file ++ (if st.header_written then [] else [CsvLine.header])
            ++ b.map CsvLine.data := by
        simp [writer, hb]
      rw [hfile, dataCount_append, dataCount_append, dataCount_map_data]
      have hmid : dataCount (α := α)
          (if st.header_written then [] else [CsvLine.header]) = 0 := by
        cases st.header_written <;> rfl
      rw [hmid]
      simp only [List.map_cons, List.sum_cons]
      omega

theorem writer_resume_headerCount {α : Type} (f : List (CsvLine α))
    (rows : List α) :
    headerCount ((writer (resumeState f) rows).file) = headerCount f := by
  by_cases hr : rows.isEmpty
  · simp [writer, hr, resumeState]
  · simp [writer, hr, resumeState]
    rw [headerCount_append, headerCount_map_data]
    omega

/-- Claim C2: starting from a fresh destination, the writer emits the column
header exactly once, on the first non-empty append (the header is the first
line of the file), every append adds only data rows thereafter, the three
chunks of sizes 2, 2 and 1 produce one header line and 5 data rows, and a
further append in a resumed run over the same destination (header already
present) adds no second header. -/
theorem claim_writer_header_exactly_once :
    (∀ batches : List (List Nat),
      headerCount (runWriter (freshState Nat) batches).file =
        (if batches.any (fun r => !r.isEmpty) = true then 1 else 0) ∧
      dataCount (runWriter (freshState Nat) batches).file =
        (batches.map List.length).sum ∧
      ((runWriter (freshState Nat) batches).file = [] ∨
        (runWriter (freshState Nat) batches).file.head? =
          some CsvLine.header)) ∧
    (∀ (f : List (CsvLine Nat)) (rows : List Nat),
      headerCount ((writer (resumeState f) rows).file) = headerCount f) ∧
    headerCount (runWriter (freshState Nat) [[1, 2], [3, 4], [5]]).file = 1 ∧
    dataCount (runWriter (freshState Nat) [[1, 2], [3, 4], [5]]).file = 5 ∧
    headerCount ((writer
      (resumeState (runWriter (freshState Nat) [[1, 2], [3, 4], [5]]).file)
      [6]).file) = 1 := by
  refine ⟨?_, writer_resume_headerCount, by decide, by decide, by decide⟩
  intro batches
  have hfreshInv : WriterInv (freshState Nat) := by
    constructor
    · intro _; rfl
    · intro h; cases h
  have hinv := runWriter_preserves_inv batches (freshState Nat) hfreshInv
  have hflag := runWriter_flag batches (freshState Nat)
  have hdata := runWriter_dataCount batches (freshState Nat)
  refine ⟨?_, ?_, ?_⟩
  · by_cases hany : batches.any (fun r => !r.isEmpty) = true
    · have hw : (runWriter (freshState Nat) batches).header_written = true := by
        rw [hflag, hany]; rfl
      simp [hany, (hinv.2 hw).1]
    · have hb : batches.any (fun r => !r.isEmpty) = false := by
        cases h : batches.any (fun r => !r.isEmpty)
        · rfl
        · exact absurd h hany
      have hw : (runWriter (freshState Nat) batches).header_written = false := by
        rw [hflag, hb]; rfl
      have := hinv.1 hw
      simp [hany, this, headerCount]
  · simpa [freshState, dataCount] using hdata
  · by_cases hany : batches.any (fun r => !r.isEmpty) = true
    · have hw : (runWriter (freshState Nat) batches).header_written = true := by
        rw [hflag, hany]; rfl
      exact Or.inr (hinv.2 hw).2
    · have hb : batches.any (fun r => !r.isEmpty) = false := by
        cases h : batches.any (fun r => !r.isEmpty)
        · rfl
        · exact absurd h hany
      have hw : (runWriter (freshState Nat) batches).header_written = false := by
        rw [hflag, hb]; rfl
      exact Or.inl (hinv.1 hw)

/-- Claim C10: calling the writer with an empty batch of rows is a no-op;
the destination file and the header_written flag are both unchanged. -/
theorem claim_writer_empty_batch_noop {α : Type} (st : WriterState α) :
    writer st [] = st := rfl

theorem getAssoc_setAssoc {α : Type} (m : List (String × α)) (k k2 : String)
    (v : α) :
    getAssoc (setAssoc m k v) k2 = if k = k2 then some v else getAssoc m k2 := by
  induction m with
  | nil => by_cases h : k = k2 <;> simp [setAssoc, getAssoc, h]
  | cons p rest ih =>
    obtain ⟨k1, v1⟩ := p
    by_cases h1 : k1 = k
    · subst h1
      by_cases h2 : k1 = k2 <;> simp [setAssoc, getAssoc, h2]
    · by_cases h2 : k1 = k2
      · subst h2
        have : ¬ k = k1 := fun h => h1 h.symm
        simp [setAssoc, getAssoc, h1, this]
      · simp [setAssoc, getAssoc, h1, h2, ih]

theorem indexLookup_addRecord (idx : SubjectIndex) (r : SegRecord)
    (subj sess : String) :
    indexLookup (addRecord idx r) subj sess =
      if r.1 = subj ∧ r.2.1 = sess then some r.2.2
      else indexLookup idx subj sess := by
  by_cases hs : r.1 = subj
  · subst hs
    by_cases hq : r.2.1 = sess
    · simp [indexLookup, addRecord, getAssoc_setAssoc, hq]
    · simp [indexLookup, addRecord, getAssoc_setAssoc, hq]
      cases h : getAssoc idx r.1 with
      | none => simp [getAssoc]
      | some m => simp
  · have : ¬ (r.1 = subj ∧ r.2.1 = sess) := fun h => hs h.1
    simp [indexLookup, addRecord, getAssoc_setAssoc, hs, this]

theorem foldl_addRecord_lookup (records : List SegRecord) :
    ∀ (idx : SubjectIndex) (subj sess : String),
      indexLookup (records.foldl addRecord idx) subj sess =
        match lastPathFor records subj sess with
        | some p => some p
        | none => indexLookup idx subj sess := by
  induction records with
  | nil => intro idx subj sess; simp [lastPathFor]
  | cons r rest ih =>
    intro idx subj sess
    show indexLookup (rest.foldl addRecord (addRecord idx r)) subj sess = _
    rw [ih]
    cases h : lastPathFor rest subj sess with
    | some p => simp [lastPathFor, h]
    | none =>
      rw [indexLookup_addRecord]
      by_cases hm : r.1 = subj ∧ r.2.1 = sess
      · simp [lastPathFor, h, hm]
      · simp [lastPathFor, h, hm]

/-- Counterexample to claim C1 as stated: two records resolving to the same
(subject, session) pair; the index keeps the second (later) path, so the
later file does replace the first. -/
theorem claim_index_collision_counterexample :
    indexLookup
      (buildSubjectFiles
        [("sub-01", "ses-001", "first.mgz"), ("sub-01", "ses-001", "second.mgz")])
      "sub-01" "ses-001" = some "second.mgz" ∧
    ("second.mgz" : String) ≠ "first.mgz" := by
  constructor
  · rfl
  · decide

/-- Claim C1 amended: on a collision the Segmentation Index keeps the LAST
file discovered in traversal order; for every record list, the stored path
for a (subject, session) pair is the path of the last record resolving
to that pair. -/
theorem claim_index_collision_keeps_last (records : List SegRecord)
    (subj sess : String) :
    indexLookup (buildSubjectFiles records) subj sess =
      lastPathFor records subj sess := by
  rw [buildSubjectFiles, foldl_addRecord_lookup]
  cases h : lastPathFor records subj sess with
  | some p => rfl
  | none => simp [indexLookup, getAssoc]

/-- Counterexample to claim C6 as stated: for a non-flat segmentation
filename, the resolver of find_segmentations maps the run directory
ses-017.long.simonBase_all_2025 to the pooled subject constant
long.simonBase_all_2025 of compute_consecutive_metrics.py line 78, which
is not the subject simon the claim asserts. -/
theorem claim_identity_resolver_counterexample :
    find_segmentations_identity "ses-017.long.simonBase_all_2025"
      "fs_longitudinal" "aparc.DKTatlas+aseg.mgz" =
      ("long.simonBase_all_2025", "ses-017.long.simonBase_all_2025") ∧
    ("long.simonBase_all_2025" : String) ≠ "simon" := by
  constructor
  · rfl
  · decide

/-- Claim C6 amended: the flat filename sub-01_ses-siteATV_aparcDKT+aseg.mgz
resolves to (sub-01, ses-siteATV); a run-directory name starting with
ses- is pooled under a single fixed synthetic subject with the session
equal to the full run-directory name, but the fixed subject constant
differs between the two pipelines: parse_subject_session uses simon,
while find_segmentations uses long.simonBase_all_2025. -/
theorem claim_identity_resolver (run_dir : String)
    (h : pyStartsWith run_dir "ses-" = true) :
    matchFlat "sub-01_ses-siteATV_aparcDKT+aseg.mgz" =
      some ("sub-01", "ses-siteATV") ∧
    parse_subject_session run_dir = ("simon", run_dir) ∧
    (∀ parent_dir name : String, matchFlat name = none →
      find_segmentations_identity run_dir parent_dir name =
        ("long.simonBase_all_2025", run_dir)) := by
  refine ⟨rfl, ?_, ?_⟩
  · have hses : run_dir.data.take 4 = "ses-".data := by
      have := of_decide_eq_true h
      simpa using this
    have hsub : pyStartsWith run_dir "sub-" = false := by
      apply decide_eq_false
      intro hcontra
      rw [show ("sub-" : String).length = 4 from rfl] at hcontra
      rw [hses] at hcontra
      simp at hcontra
    simp [parse_subject_session, hsub, h]
  · intro parent_dir name hnone
    simp [find_segmentations_identity, hnone, h]

/-- Witness for claim C6 at the run directory from the specification and
a non-flat segmentation filename. -/
theorem claim_identity_resolver_witness :
    pyStartsWith "ses-017.long.simonBase_all_2025" "ses-" = true ∧
    matchFlat "aparc.DKTatlas+aseg.mgz" = none ∧
    (matchFlat "sub-01_ses-siteATV_aparcDKT+aseg.mgz" =
      some ("sub-01", "ses-siteATV") ∧
    parse_subject_session "ses-017.long.simonBase_all_2025" =
      ("simon", "ses-017.long.simonBase_all_2025") ∧
    find_segmentations_identity "ses-017.long.simonBase_all_2025"
      "fs_longitudinal" "aparc.DKTatlas+aseg.mgz" =
      ("long.simonBase_all_2025", "ses-017.long.simonBase_all_2025")) := by
  refine ⟨by decide, by decide, ?_⟩
  obtain ⟨h1, h2, h3⟩ :=
    claim_identity_resolver "ses-017.long.simonBase_all_2025" (by decide)
  exact ⟨h1, h2, h3 "fs_longitudinal" "aparc.DKTatlas+aseg.mgz" (by decide)⟩

theorem keyLE_total (a b : SessKey) : keyLE a b ∨ keyLE b a := by
  cases a <;> cases b <;> simp [keyLE]
  · exact Nat.le_total _ _
  · exact le_total _ _

theorem keyLE_trans {a b c : SessKey} (h1 : keyLE a b) (h2 : keyLE b c) :
    keyLE a c := by
  cases a <;> cases b <;> cases c <;> simp [keyLE] at * <;>
    exact le_trans h1 h2

theorem keyLE_antisymm {a b : SessKey} (h1 : keyLE a b) (h2 : keyLE b a) :
    a = b := by
  cases a with
  | inl m =>
    cases b with
    | inl n => exact congrArg Sum.inl (Nat.le_antisymm h1 h2)
    | inr t => exact h2.elim
  | inr s =>
    cases b with
    | inl n => exact h1.elim
    | inr t => exact congrArg Sum.inr (le_antisymm h1 h2)

instance : IsTotal String sessRel := ⟨fun _ _ => keyLE_total _ _⟩

instance : IsTrans String sessRel := ⟨fun _ _ _ => keyLE_trans⟩

/-- Claim C7: the session sort key orders identifiers with a numeric token
after ses- numerically in a primary bucket, places them before all
identifiers without such a token, orders the latter lexicographically in a
secondary bucket, and sorting [ses-2, ses-10, ses-1] with it yields
[ses-1, ses-2, ses-10]. -/
theorem claim_session_sort_key (s1 s2 : String) (n1 n2 : Nat) :
    (findSesNum s1 = some n1 → findSesNum s2 = some n2 →
      (sessRel s1 s2 ↔ n1 ≤ n2)) ∧
    (findSesNum s1 = some n1 → findSesNum s2 = none → sessRel s1 s2) ∧
    (findSesNum s1 = none → findSesNum s2 = some n2 → ¬ sessRel s1 s2) ∧
    (findSesNum s1 = none → findSesNum s2 = none →
      (sessRel s1 s2 ↔ s1 ≤ s2)) ∧
    sortSessions ["ses-2", "ses-10", "ses-1"] = ["ses-1", "ses-2", "ses-10"] := by
  refine ⟨?_, ?_, ?_, ?_, by decide⟩
  · intro h1 h2
    simp [sessRel, session_sort_key, h1, h2, keyLE]
  · intro h1 h2
    simp [sessRel, session_sort_key, h1, h2, keyLE]
  · intro h1 h2
    simp [sessRel, session_sort_key, h1, h2, keyLE]
  · intro h1 h2
    simp [sessRel, session_sort_key, h1, h2, keyLE]

/-- Witness for claim C7 at concrete session identifiers. -/
theorem claim_session_sort_key_witness :
    findSesNum "ses-2" = some 2 ∧ findSesNum "ses-10" = some 10 ∧
    findSesNum "sub-01_ses-siteATV" = none ∧
    (sessRel "ses-2" "ses-10" ↔ 2 ≤ 10) ∧
    sessRel "ses-10" "sub-01_ses-siteATV" :=
  ⟨by decide, by decide, by decide,
    (claim_session_sort_key "ses-2" "ses-10" 2 10).1 (by decide) (by decide),
    (claim_session_sort_key "ses-10" "sub-01_ses-siteATV" 10 0).2.1
      (by decide) (by decide)⟩

/-- Two sorted lists that are permutations of each other are equal when the
sort keys are injective on their elements. This is the uniqueness of a
stable sort result under distinct keys. -/
theorem sorted_sessions_unique :
    ∀ l1 l2 : List String, l1.Perm l2 →
      l1.Sorted sessRel → l2.Sorted sessRel →
      (∀ a ∈ l1, ∀ b ∈ l1, session_sort_key a = session_sort_key b → a = b) →
      l1 = l2 := by
  intro l1
  induction l1 with
  | nil =>
    intro l2 hperm _ _ _
    exact (hperm.nil_eq).symm ▸ rfl
  | cons a t1 ih =>
    intro l2 hperm hs1 hs2 hinj
    cases l2 with
    | nil => exact absurd hperm.symm.nil_eq (by simp)
    | cons b t2 =>
      have hmem_a : a ∈ b :: t2 := hperm.mem_iff.mp (List.mem_cons_self a t1)
      have hmem_b : b ∈ a :: t1 := hperm.mem_iff.mpr (List.mem_cons_self b t2)
      have hab : sessRel a b := by
        rcases List.mem_cons.mp hmem_b with h | h
        · rw [h]; exact keyLE_total _ _ |>.elim id id
        · exact (List.sorted_cons.mp hs1).1 b h
      have hba : sessRel b a := by
        rcases List.mem_cons.mp hmem_a with h | h
        · rw [h]; exact keyLE_total _ _ |>.elim id id
        · exact (List.sorted_cons.mp hs2).1 a h
      have heq : a = b :=
        hinj a (List.mem_cons_self a t1) b hmem_b (keyLE_antisymm hab hba)
      subst heq
      have htail : t1.Perm t2 := hperm.cons_inv
      have : t1 = t2 := by
        apply ih t2 htail (List.sorted_cons.mp hs1).2 (List.sorted_cons.mp hs2).2
        intro x hx y hy hxy
        exact hinj x (List.mem_cons_of_mem a hx) y (List.mem_cons_of_mem a hy) hxy
      rw [this]

/-- Counterexample to claim C9 as stated: the sessions ses-1a and ses-1b
share the sort key (0, 1), so the consecutive-only policy evaluates
different pair sets for two discovery orders of the same session set: the
pair (ses-1b, ses-2) is evaluated in one order and not in the other (in
either orientation). -/
theorem claim_pair_set_order_counterexample :
    (["ses-1b", "ses-1a", "ses-2"] : List String).Perm
      ["ses-1a", "ses-1b", "ses-2"] ∧
    session_sort_key "ses-1a" = session_sort_key "ses-1b" ∧
    ("ses-1b", "ses-2") ∈ consecutivePairs ["ses-1a", "ses-1b", "ses-2"] ∧
    ("ses-1b", "ses-2") ∉ consecutivePairs ["ses-1b", "ses-1a", "ses-2"] ∧
    ("ses-2", "ses-1b") ∉ consecutivePairs ["ses-1b", "ses-1a", "ses-2"] := by
  refine ⟨?_, by decide, by decide, by decide, by decide⟩
  decide

/-- Claim C9 amended: for every subject the evaluated pair set is a
function of the discovered session set alone for the all-pairs policy;
for the consecutive-only policy the same holds provided distinct sessions
have distinct sort keys (with tied keys the evaluated pairs can depend on
discovery order). -/
theorem claim_pair_set_order_independent (l1 l2 : List String)
    (hperm : l1.Perm l2) :
    allPairs l1 = allPairs l2 ∧
    ((∀ a ∈ l1, ∀ b ∈ l1, session_sort_key a = session_sort_key b → a = b) →
      consecutivePairs l1 = consecutivePairs l2) := by
  constructor
  · have hs1 := List.sorted_insertionSort (fun a b : String => a ≤ b) l1
    have hs2 := List.sorted_insertionSort (fun a b : String => a ≤ b) l2
    have hp : (sortedStrings l1).Perm (sortedStrings l2) :=
      (List.perm_insertionSort _ l1).trans
        (hperm.trans (List.perm_insertionSort _ l2).symm)
    have hsorted : sortedStrings l1 = sortedStrings l2 :=
      List.eq_of_perm_of_sorted hp hs1 hs2
    rw [allPairs, allPairs, hsorted]
  · intro hinj
    have hsorted : sortSessions l1 = sortSessions l2 := by
      apply sorted_sessions_unique
      · exact (List.perm_insertionSort _ l1).trans
          (hperm.trans (List.perm_insertionSort _ l2).symm)
      · exact List.sorted_insertionSort _ l1
      · exact List.sorted_insertionSort _ l2
      · intro a ha b hb hab
        exact hinj a ((List.perm_insertionSort _ l1).mem_iff.mp ha)
          b ((List.perm_insertionSort _ l1).mem_iff.mp hb) hab
    rw [consecutivePairs, consecutivePairs, hsorted]

/-- Witness for the amended claim C9 at a concrete permuted session set. -/
theorem claim_pair_set_order_independent_witness :
    (["ses-2", "ses-1"] : List String).Perm ["ses-1", "ses-2"] ∧
    (allPairs ["ses-2", "ses-1"] = allPairs ["ses-1", "ses-2"] ∧
      ((∀ a ∈ (["ses-2", "ses-1"] : List String),
          ∀ b ∈ (["ses-2", "ses-1"] : List String),
          session_sort_key a = session_sort_key b → a = b) →
        consecutivePairs ["ses-2", "ses-1"] =
          consecutivePairs ["ses-1", "ses-2"])) :=
  ⟨by decide,
    claim_pair_set_order_independent ["ses-2", "ses-1"] ["ses-1", "ses-2"]
      (by decide)⟩

theorem subjectStep_pos {α : Type} (cs : Nat) (buf rs : List α)
    (w : List (List α)) (h : cs ≤ (buf ++ rs).length) :
    subjectStep cs (buf, w) rs = ([], w ++ [buf ++ rs]) := by
  show (if cs ≤ (buf ++ rs).length then (([] : List α), w ++ [buf ++ rs])
    else (buf ++ rs, w)) = ([], w ++ [buf ++ rs])
  rw [if_pos h]

theorem subjectStep_neg {α : Type} (cs : Nat) (buf rs : List α)
    (w : List (List α)) (h : ¬ cs ≤ (buf ++ rs).length) :
    subjectStep cs (buf, w) rs = (buf ++ rs, w) := by
  show (if cs ≤ (buf ++ rs).length then (([] : List α), w ++ [buf ++ rs])
    else (buf ++ rs, w)) = (buf ++ rs, w)
  rw [if_neg h]

theorem bufferEnds_cons_pos {α : Type} (cs : Nat) (buf rs : List α)
    (rest : List (List α)) (h : cs ≤ (buf ++ rs).length) :
    bufferEnds cs buf (rs :: rest) = 0 :: bufferEnds cs [] rest := by
  show ((if cs ≤ (buf ++ rs).length then ([] : List α) else buf ++ rs).length ::
    bufferEnds cs (if cs ≤ (buf ++ rs).length then [] else buf ++ rs) rest) = _
  rw [if_pos h]
  rfl

theorem bufferEnds_cons_neg {α : Type} (cs : Nat) (buf rs : List α)
    (rest : List (List α)) (h : ¬ cs ≤ (buf ++ rs).length) :
    bufferEnds cs buf (rs :: rest) =
      (buf ++ rs).length :: bufferEnds cs (buf ++ rs) rest := by
  show ((if cs ≤ (buf ++ rs).length then ([] : List α) else buf ++ rs).length ::
    bufferEnds cs (if cs ≤ (buf ++ rs).length then [] else buf ++ rs) rest) = _
  rw [if_neg h]

theorem bufferPeaks_cons_pos {α : Type} (cs : Nat) (buf rs : List α)
    (rest : List (List α)) (h : cs ≤ (buf ++ rs).length) :
    bufferPeaks cs buf (rs :: rest) =
      (buf ++ rs).length :: bufferPeaks cs [] rest := by
  show ((buf ++ rs).length ::
    bufferPeaks cs (if cs ≤ (buf ++ rs).length then [] else buf ++ rs) rest) = _
  rw [if_pos h]

theorem bufferPeaks_cons_neg {α : Type} (cs : Nat) (buf rs : List α)
    (rest : List (List α)) (h : ¬ cs ≤ (buf ++ rs).length) :
    bufferPeaks cs buf (rs :: rest) =
      (buf ++ rs).length :: bufferPeaks cs (buf ++ rs) rest := by
  show ((buf ++ rs).length ::
    bufferPeaks cs (if cs ≤ (buf ++ rs).length then [] else buf ++ rs) rest) = _
  rw [if_neg h]

/-- The instrumented end-of-iteration buffer sizes agree with the buffer
the process_subject fold actually carries. -/
theorem bufferEnds_last {α : Type} (cs : Nat) :
    ∀ (pairs : List (List α)) (buf : List α) (w : List (List α)),
      (pairs.foldl (subjectStep cs) (buf, w)).1.length =
        (bufferEnds cs buf pairs).getLastD buf.length := by
  intro pairs
  induction pairs with
  | nil => intro buf w; rfl
  | cons rs rest ih =>
    intro buf w
    show (rest.foldl (subjectStep cs) (subjectStep cs (buf, w) rs)).1.length = _
    by_cases h2 : cs ≤ (buf ++ rs).length
    · rw [subjectStep_pos cs buf rs w h2, bufferEnds_cons_pos cs buf rs rest h2,
        List.getLastD_cons]
      exact ih [] (w ++ [buf ++ rs])
    · rw [subjectStep_neg cs buf rs w h2, bufferEnds_cons_neg cs buf rs rest h2,
        List.getLastD_cons]
      exact ih (buf ++ rs) w

/-- Counterexample to claim C3 as stated: with chunk size 2, a single pair
producing 3 rows makes the buffer hold 3 completed-but-unflushed rows
after the extend and before the flush check, exceeding one chunk. -/
theorem claim_buffer_bound_counterexample :
    bufferPeaks 2 ([] : List Nat) [[0, 1, 2]] = [3] ∧ ¬ (3 ≤ 2) ∧
    process_subject 2 [[0, 1, 2]] = ([], [[0, 1, 2]]) := by
  refine ⟨rfl, by decide, rfl⟩

theorem bufferEnds_lt {α : Type} (cs : Nat) (hcs : 1 ≤ cs) :
    ∀ (pairs : List (List α)) (buf : List α), buf.length < cs →
      ∀ n ∈ bufferEnds cs buf pairs, n < cs := by
  intro pairs
  induction pairs with
  | nil => intro buf hbuf n hn; simp [bufferEnds] at hn
  | cons rs rest ih =>
    intro buf hbuf n hn
    by_cases h : cs ≤ (buf ++ rs).length
    · rw [bufferEnds_cons_pos cs buf rs rest h] at hn
      rcases List.mem_cons.mp hn with hn | hn
      · omega
      · exact ih [] (by simpa using hcs) n hn
    · rw [bufferEnds_cons_neg cs buf rs rest h] at hn
      rcases List.mem_cons.mp hn with hn | hn
      · omega
      · exact ih (buf ++ rs) (by omega) n hn

theorem bufferPeaks_le {α : Type} (cs : Nat) (hcs : 1 ≤ cs) :
    ∀ (pairs : List (List α)) (buf : List α), buf.length < cs →
      ∀ n ∈ bufferPeaks cs buf pairs, n ≤ (cs - 1) + maxRowsPerPair pairs := by
  intro pairs
  induction pairs with
  | nil => intro buf hbuf n hn; simp [bufferPeaks] at hn
  | cons rs rest ih =>
    intro buf hbuf n hn
    have hmax : maxRowsPerPair (rs :: rest) =
        Nat.max rs.length (maxRowsPerPair rest) := rfl
    have hL : rs.length ≤ Nat.max rs.length (maxRowsPerPair rest) :=
      Nat.le_max_left _ _
    have hR : maxRowsPerPair rest ≤ Nat.max rs.length (maxRowsPerPair rest) :=
      Nat.le_max_right _ _
    have hlen : (buf ++ rs).length = buf.length + rs.length :=
      List.length_append buf rs
    by_cases h : cs ≤ (buf ++ rs).length
    · rw [bufferPeaks_cons_pos cs buf rs rest h] at hn
      rcases List.mem_cons.mp hn with hn | hn
      · rw [hn, hmax]; omega
      · have := ih [] (by simpa using hcs) n hn
        rw [hmax]; omega
    · rw [bufferPeaks_cons_neg cs buf rs rest h] at hn
      rcases List.mem_cons.mp hn with hn | hn
      · rw [hn, hmax]; omega
      · have := ih (buf ++ rs) (by omega) n hn
        rw [hmax]; omega

/-- Claim C3 amended: with chunk size N at least 1, at the end of every
pair iteration the buffer holds fewer than N rows; immediately after a
pair is appended (before the flush check) the buffer holds at most N-1
rows plus that pair of rows, so an interruption loses at most N-1 rows
plus the rows of one pair of completed-but-unflushed work, not at most N
rows. -/
theorem claim_buffer_bound_amended {α : Type} (chunk_size : Nat)
    (pairResults : List (List α)) (h : 1 ≤ chunk_size) :
    (∀ n ∈ bufferEnds chunk_size ([] : List α) pairResults, n < chunk_size) ∧
    (∀ n ∈ bufferPeaks chunk_size ([] : List α) pairResults,
      n ≤ (chunk_size - 1) + maxRowsPerPair pairResults) :=
  ⟨bufferEnds_lt chunk_size h pairResults [] (by simpa using h),
    bufferPeaks_le chunk_size h pairResults [] (by simpa using h)⟩

/-- Witness for the amended claim C3 at a concrete run. -/
theorem claim_buffer_bound_amended_witness :
    1 ≤ 2 ∧
    ((∀ n ∈ bufferEnds 2 ([] : List Nat) [[0, 1, 2], [4]], n < 2) ∧
      (∀ n ∈ bufferPeaks 2 ([] : List Nat) [[0, 1, 2], [4]],
        n ≤ (2 - 1) + maxRowsPerPair [[0, 1, 2], [4]])) :=
  ⟨by decide, claim_buffer_bound_amended 2 [[0, 1, 2], [4]] (by decide)⟩

/-- Claim C4: for binary masks, the Dice coefficient equals
2 inter / (c1 + c2) when at least one mask is non-empty; when both masks
are empty it is the undefined sentinel none (modelling np.nan), never the
value zero; the inline dice of compute_metrics has the same sentinel. -/
theorem claim_dice_empty_undefined (m1 m2 : List Bool) :
    (m1.count true + m2.count true ≠ 0 →
      compute_dice_coefficient m1 m2 =
        some ((2 * ((List.zipWith and m1 m2).count true : ℚ)) /
          ((m1.count true : ℚ) + (m2.count true : ℚ)))) ∧
    (m1.count true = 0 → m2.count true = 0 →
      compute_dice_coefficient m1 m2 = none ∧
      compute_dice_coefficient m1 m2 ≠ some 0) ∧
    (∀ (v1 v2 : Vol) (sp : ℚ × ℚ × ℚ) (lbl : Int),
      countLabel v1 lbl = 0 → countLabel v2 lbl = 0 →
      (metricRowFor v1 v2 sp lbl).dice = none) := by
  refine ⟨?_, ?_, ?_⟩
  · intro h
    rw [compute_dice_coefficient, if_neg h]
  · intro h1 h2
    have hz : m1.count true + m2.count true = 0 := by omega
    constructor
    · rw [compute_dice_coefficient, if_pos hz]
    · rw [compute_dice_coefficient, if_pos hz]
      exact fun h => Option.noConfusion h
  · intro v1 v2 sp lbl h1 h2
    simp [metricRowFor, h1, h2]

/-- Witness for claim C4: a non-empty mask pair and an empty mask pair. -/
theorem claim_dice_empty_undefined_witness :
    (([true, true] : List Bool).count true +
      ([true, false] : List Bool).count true ≠ 0) ∧
    compute_dice_coefficient [true, true] [true, false] =
      some ((2 * ((List.zipWith and [true, true] [true, false]).count true : ℚ)) /
        ((([true, true] : List Bool).count true : ℚ) +
          (([true, false] : List Bool).count true : ℚ))) ∧
    (compute_dice_coefficient [false] [false] = none ∧
      compute_dice_coefficient [false] [false] ≠ some 0) :=
  ⟨by decide,
    (claim_dice_empty_undefined [true, true] [true, false]).1 (by decide),
    (claim_dice_empty_undefined [false] [false]).2.1 (by decide) (by decide)⟩

/-- Counterexample to claim C5 as stated: in the all-pairs pipeline,
process_session_pair has no shape check, so a mismatched pair does not
produce a skip — it raises, and the pair loop aborts with the remaining
pair ([[[9]]], [[[9]]]) never processed, instead of logging and
continuing. -/
theorem claim_shape_mismatch_fatal_counterexample :
    shape3 [[[1]]] ≠ shape3 [[[1], [1]]] ∧
    process_session_pair [[[1]]] [[[1], [1]]] (1, 1, 1) =
      Except.error "shape mismatch raises" ∧
    processPairsAllPairs
      [([[[7]]], [[[7]]]), ([[[1]]], [[[1], [1]]]), ([[[9]]], [[[9]]])]
      (1, 1, 1) = Except.error "shape mismatch raises" := by
  refine ⟨by decide, rfl, rfl⟩

theorem processSessionPairsGo_error (sp : ℚ × ℚ × ℚ) (v1 v2 : Vol)
    (ps2 : List (Vol × Vol)) (h : shape3 v1 ≠ shape3 v2) :
    ∀ (ps1 : List (Vol × Vol)) (acc : List MetricRow),
      (∀ pr ∈ ps1, shape3 pr.1 = shape3 pr.2) →
      processSessionPairsGo sp acc (ps1 ++ (v1, v2) :: ps2) =
        Except.error "shape mismatch raises" := by
  have herr : process_session_pair v1 v2 sp =
      Except.error "shape mismatch raises" := by
    rw [process_session_pair, if_pos h]
  intro ps1
  induction ps1 with
  | nil =>
    intro acc _
    show (match process_session_pair v1 v2 sp with
      | Except.error e => Except.error e
      | Except.ok rows => processSessionPairsGo sp (acc ++ rows) ps2) = _
    rw [herr]
  | cons pr ps ih =>
    intro acc hok
    have hpr : process_session_pair pr.1 pr.2 sp =
        Except.ok ((uniqueLabels pr.1 pr.2).map (metricRowFor pr.1 pr.2 sp)) := by
      rw [process_session_pair,
        if_neg (not_not_intro (hok pr (List.mem_cons_self pr ps)))]
    show (match process_session_pair pr.1 pr.2 sp with
      | Except.error e => Except.error e
      | Except.ok rows =>
          processSessionPairsGo sp (acc ++ rows) (ps ++ (v1, v2) :: ps2)) = _
    rw [hpr]
    exact ih _ (fun q hq => hok q (List.mem_cons_of_mem pr hq))

/-- Claim C5 amended: only the consecutive-only pipeline treats a shape
mismatch as a defined skip — compute_metrics returns none and its caller
logs the pair and continues with the remaining pairs unchanged; the
all-pairs pipeline performs no shape check, so process_session_pair
raises on a mismatched pair and the run aborts, with the remaining pairs
never processed. -/
theorem claim_shape_mismatch_skip (v1 v2 : Vol) (sp : ℚ × ℚ × ℚ)
    (labels : List Int) (ps1 ps2 : List (Vol × Vol))
    (h : shape3 v1 ≠ shape3 v2) :
    compute_metrics v1 v2 sp labels = none ∧
    processPairs (ps1 ++ (v1, v2) :: ps2) sp labels =
      processPairs (ps1 ++ ps2) sp labels ∧
    process_session_pair v1 v2 sp = Except.error "shape mismatch raises" ∧
    ((∀ pr ∈ ps1, shape3 pr.1 = shape3 pr.2) →
      processPairsAllPairs (ps1 ++ (v1, v2) :: ps2) sp =
        Except.error "shape mismatch raises") := by
  have hnone : compute_metrics v1 v2 sp labels = none := by
    rw [compute_metrics, if_pos h]
  refine ⟨hnone, ?_, ?_, ?_⟩
  · rw [processPairs, processPairs, List.foldl_append, List.foldl_append,
      List.foldl_cons]
    simp only [hnone]
  · rw [process_session_pair, if_pos h]
  · intro hok
    exact processSessionPairsGo_error sp v1 v2 ps2 h ps1 [] hok

/-- Witness for the amended claim C5 at volumes of shapes (1,1,1) and
(1,2,1), with a matching pair before and after the mismatched one. -/
theorem claim_shape_mismatch_skip_witness :
    shape3 [[[1]]] ≠ shape3 [[[1], [1]]] ∧
    (∀ pr ∈ ([([[[7]]], [[[7]]])] : List (Vol × Vol)),
      shape3 pr.1 = shape3 pr.2) ∧
    (compute_metrics [[[1]]] [[[1], [1]]] (1, 1, 1) [1] = none ∧
      processPairs ([([[[7]]], [[[7]]])] ++ ([[[1]]], [[[1], [1]]]) ::
          [([[[9]]], [[[9]]])]) (1, 1, 1) [1] =
        processPairs ([([[[7]]], [[[7]]])] ++ [([[[9]]], [[[9]]])])
          (1, 1, 1) [1] ∧
      process_session_pair [[[1]]] [[[1], [1]]] (1, 1, 1) =
        Except.error "shape mismatch raises" ∧
      processPairsAllPairs ([([[[7]]], [[[7]]])] ++ ([[[1]]], [[[1], [1]]]) ::
          [([[[9]]], [[[9]]])]) (1, 1, 1) =
        Except.error "shape mismatch raises") := by
  refine ⟨by decide, by decide, ?_⟩
  obtain ⟨h1, h2, h3, h4⟩ :=
    claim_shape_mismatch_skip [[[1]]] [[[1], [1]]] (1, 1, 1) [1]
      [([[[7]]], [[[7]]])] [([[[9]]], [[[9]]])] (by decide)
  exact ⟨h1, h2, h3, h4 (by decide)⟩

theorem maskAt_mem_gridPoints (v : Vol) (lbl : Int) (p : P3)
    (h : maskAt v lbl p = true) : p ∈ gridPoints v := by
  have hcell : cellAt v p = some lbl := by
    have := of_decide_eq_true (by simpa [maskAt] using h)
    exact this
  rw [cellAt] at hcell
  by_cases hnn : 0 ≤ p.1 ∧ 0 ≤ p.2.1 ∧ 0 ≤ p.2.2
  · rw [if_pos hnn] at hcell
    cases h1 : v[p.1.toNat]? with
    | none => rw [h1] at hcell; cases hcell
    | some plane =>
      rw [h1] at hcell
      have hcell2 : (match plane[p.2.1.toNat]? with
          | none => none
          | some row => row[p.2.2.toNat]?) = some lbl := hcell
      cases h2 : plane[p.2.1.toNat]? with
      | none => rw [h2] at hcell2; cases hcell2
      | some row =>
        rw [h2] at hcell2
        have hcell3 : row[p.2.2.toNat]? = some lbl := hcell2
        obtain ⟨hlt1, he1⟩ := List.getElem?_eq_some.mp h1
        obtain ⟨hlt2, he2⟩ := List.getElem?_eq_some.mp h2
        obtain ⟨hlt3, _⟩ := List.getElem?_eq_some.mp hcell3
        have hd1 : v.getD p.1.toNat [] = plane := by
          rw [List.getD_eq_getElem v [] hlt1, he1]
        have hd2 : (v.getD p.1.toNat []).getD p.2.1.toNat [] = row := by
          rw [hd1, List.getD_eq_getElem plane [] hlt2, he2]
        have hb2 : p.2.1.toNat < (v.getD p.1.toNat []).length := by
          rw [hd1]
          exact hlt2
        have hb3 : p.2.2.toNat <
            ((v.getD p.1.toNat []).getD p.2.1.toNat []).length := by
          rw [hd2]
          exact hlt3
        have heq : ((p.1.toNat : Int), (p.2.1.toNat : Int),
            (p.2.2.toNat : Int)) = p := by
          rw [Int.toNat_of_nonneg hnn.1, Int.toNat_of_nonneg hnn.2.1,
            Int.toNat_of_nonneg hnn.2.2]
        rw [gridPoints]
        exact List.mem_flatMap.mpr ⟨p.1.toNat, List.mem_range.mpr hlt1,
          List.mem_flatMap.mpr ⟨p.2.1.toNat, List.mem_range.mpr hb2,
            List.mem_map.mpr ⟨p.2.2.toNat, List.mem_range.mpr hb3, heq⟩⟩⟩
  · rw [if_neg hnn] at hcell
    cases hcell

theorem surfacePoints_ne_nil (v : Vol) (lbl : Int)
    (h : 0 < countLabel v lbl) : surfacePoints v lbl ≠ [] := by
  have hne : (gridPoints v).filter (maskAt v lbl) ≠ [] := by
    rw [← List.length_pos]
    exact h
  cases hma : ((gridPoints v).filter (maskAt v lbl)).argmin
      (fun p : P3 => p.1) with
  | none => exact absurd (List.argmin_eq_none.mp hma) hne
  | some m =>
    have hmem : m ∈ (gridPoints v).filter (maskAt v lbl) :=
      List.argmin_mem hma
    have hmask : maskAt v lbl m = true := (List.mem_filter.mp hmem).2
    have hgrid : m ∈ gridPoints v := (List.mem_filter.mp hmem).1
    have hq : maskAt v lbl (m.1 - 1, m.2.1, m.2.2) = false := by
      cases hq2 : maskAt v lbl (m.1 - 1, m.2.1, m.2.2) with
      | false => rfl
      | true =>
        have hqg : (m.1 - 1, m.2.1, m.2.2) ∈ gridPoints v :=
          maskAt_mem_gridPoints v lbl _ hq2
        have hql : (m.1 - 1, m.2.1, m.2.2) ∈
            (gridPoints v).filter (maskAt v lbl) :=
          List.mem_filter.mpr ⟨hqg, hq2⟩
        have hle := List.le_of_mem_argmin hql hma
        have hle2 : m.1 ≤ m.1 - 1 := hle
        omega
    have hall : (neighbors6 m).all (maskAt v lbl) = false := by
      cases hall2 : (neighbors6 m).all (maskAt v lbl) with
      | false => rfl
      | true =>
        have hmem6 : (m.1 - 1, m.2.1, m.2.2) ∈ neighbors6 m := by
          rw [neighbors6]
          exact List.mem_cons_self _ _
        have := List.all_eq_true.mp hall2 _ hmem6
        rw [hq] at this
        cases this
    have hsurf : surfaceAt (maskAt v lbl) m = true := by
      rw [surfaceAt, hmask, hall]
      rfl
    intro he
    have : m ∈ surfacePoints v lbl := List.mem_filter.mpr ⟨hgrid, hsurf⟩
    rw [he] at this
    exact List.not_mem_nil m this

theorem listMinD_le_head (x : ℚ) (l : List ℚ) : listMinD x l ≤ x := by
  induction l generalizing x with
  | nil => exact le_refl x
  | cons y ys ih =>
    exact le_trans (ih (min x y)) (min_le_left x y)

theorem listMinD_le_mem (l : List ℚ) (y : ℚ) (hy : y ∈ l) :
    ∀ x, listMinD x l ≤ y := by
  induction l with
  | nil => cases hy
  | cons z zs ih =>
    intro x
    rcases List.mem_cons.mp hy with h | h
    · have hz : listMinD x (z :: zs) ≤ z :=
        le_trans (listMinD_le_head (min x z) zs) (min_le_right x z)
      rw [h]
      exact hz
    · exact ih h (min x z)

theorem listMinD_mem_or (x : ℚ) (l : List ℚ) :
    listMinD x l = x ∨ listMinD x l ∈ l := by
  induction l generalizing x with
  | nil => exact Or.inl rfl
  | cons y ys ih =>
    rcases ih (min x y) with h | h
    · rcases min_choice x y with hm | hm
      · exact Or.inl (by rw [show listMinD x (y :: ys) = listMinD (min x y) ys
          from rfl, h, hm])
      · refine Or.inr ?_
        rw [show listMinD x (y :: ys) = listMinD (min x y) ys from rfl, h, hm]
        exact List.mem_cons_self y ys
    · exact Or.inr (List.mem_cons_of_mem y h)

theorem sqDist_nonneg (sp : ℚ × ℚ × ℚ) (p q : P3) : 0 ≤ sqDist sp p q := by
  rw [sqDist]
  have h1 := sq_nonneg (((p.1 - q.1 : ℤ) : ℚ) * sp.1)
  have h2 := sq_nonneg (((p.2.1 - q.2.1 : ℤ) : ℚ) * sp.2.1)
  have h3 := sq_nonneg (((p.2.2 - q.2.2 : ℤ) : ℚ) * sp.2.2)
  linarith

theorem sqDist_self (sp : ℚ × ℚ × ℚ) (p : P3) : sqDist sp p p = 0 := by
  simp [sqDist]

theorem minSqDist_self (sp : ℚ × ℚ × ℚ) (pts : List P3) (p : P3)
    (hp : p ∈ pts) : minSqDist sp pts p = 0 := by
  cases pts with
  | nil => cases hp
  | cons q qs =>
    have hform : minSqDist sp (q :: qs) p =
        listMinD (sqDist sp p q) (qs.map (sqDist sp p)) := rfl
    have hle : minSqDist sp (q :: qs) p ≤ 0 := by
      rcases List.mem_cons.mp hp with h | h
      · rw [hform, ← sqDist_self sp p]
        have : sqDist sp p q = sqDist sp p p := by rw [h]
        rw [← this]
        exact listMinD_le_head _ _
      · rw [hform, ← sqDist_self sp p]
        have : sqDist sp p p ∈ qs.map (sqDist sp p) := by
          apply List.mem_map.mpr
          exact ⟨p, h, rfl⟩
        exact listMinD_le_mem _ _ this _
    have hge : 0 ≤ minSqDist sp (q :: qs) p := by
      rw [hform]
      rcases listMinD_mem_or (sqDist sp p q) (qs.map (sqDist sp p)) with h | h
      · rw [h]; exact sqDist_nonneg sp p q
      · obtain ⟨r, _, hr⟩ := List.mem_map.mp h
        rw [← hr]
        exact sqDist_nonneg sp p r
    exact le_antisymm hle hge

theorem getD_zero_of_all_zero :
    ∀ (l : List ℚ) (i : Nat), (∀ x ∈ l, x = 0) → l.getD i 0 = 0 := by
  intro l
  induction l with
  | nil => intro i _; cases i <;> rfl
  | cons x xs ih =>
    intro i hall
    cases i with
    | zero =>
      rw [List.getD_cons_zero]
      exact hall x (List.mem_cons_self x xs)
    | succ j =>
      rw [List.getD_cons_succ]
      exact ih j (fun y hy => hall y (List.mem_cons_of_mem x hy))

/-- Claim C8: comparing a label volume against itself yields dice 1,
surface dice 1, hd95 0, volume difference 0 and equal volumes, for every
requested label present in the volume. -/
theorem claim_self_comparison (v : Vol) (sp : ℚ × ℚ × ℚ) (labels : List Int)
    (lbl : Int) (hmem : lbl ∈ labels) (hpres : 0 < countLabel v lbl) :
    ∃ rows, compute_metrics v v sp labels = some rows ∧
      metricRowFor v v sp lbl ∈ rows ∧
      (metricRowFor v v sp lbl).dice = some 1 ∧
      (metricRowFor v v sp lbl).surface_dice = 1 ∧
      (metricRowFor v v sp lbl).hd95 = 0 ∧
      (metricRowFor v v sp lbl).volume_diff = 0 ∧
      (metricRowFor v v sp lbl).volume1 = (metricRowFor v v sp lbl).volume2 := by
  have hrows : compute_metrics v v sp labels =
      some (labels.map (metricRowFor v v sp)) := by
    rw [compute_metrics, if_neg]
    simp
  have hinter : countInter v v lbl = countLabel v lbl := by
    rw [countInter, countLabel]
    congr 1
    apply List.filter_congr
    intro p _
    exact Bool.and_self (maskAt v lbl p)
  have hcast : (0 : ℚ) < (countLabel v lbl : ℚ) := by
    exact_mod_cast hpres
  have hsurf := surfacePoints_ne_nil v lbl hpres
  have hcsd : compute_surface_distances v v lbl sp =
      some ⟨(surfacePoints v lbl).map (minSqDist sp (surfacePoints v lbl)),
        (surfacePoints v lbl).map (minSqDist sp (surfacePoints v lbl))⟩ := by
    rw [compute_surface_distances, if_neg]
    simp [hsurf]
  have hzero : ∀ d ∈ (surfacePoints v lbl).map
      (minSqDist sp (surfacePoints v lbl)), d = 0 := by
    intro d hd
    obtain ⟨p, hp, hdp⟩ := List.mem_map.mp hd
    rw [← hdp]
    exact minSqDist_self sp (surfacePoints v lbl) p hp
  have hlenpos : (0 : ℚ) < (((surfacePoints v lbl).map
      (minSqDist sp (surfacePoints v lbl))).length : ℚ) := by
    rw [List.length_map]
    exact_mod_cast List.length_pos.mpr hsurf
  refine ⟨labels.map (metricRowFor v v sp), hrows,
    List.mem_map_of_mem _ hmem, ?_, ?_, ?_, ?_, rfl⟩
  · show (metricRowFor v v sp lbl).dice = some 1
    simp only [metricRowFor]
    rw [if_neg (by omega), hinter]
    congr 1
    have h2 : (countLabel v lbl : ℚ) + (countLabel v lbl : ℚ) =
        2 * (countLabel v lbl : ℚ) := by ring
    rw [h2]
    exact div_self (by positivity)
  · show (metricRowFor v v sp lbl).surface_dice = 1
    simp only [metricRowFor]
    rw [hcsd]
    simp only [compute_surface_dice]
    rw [List.filter_eq_self.mpr (fun d hd => by rw [hzero d hd]; decide)]
    exact div_self (by positivity)
  · show (metricRowFor v v sp lbl).hd95 = 0
    simp only [metricRowFor]
    rw [hcsd]
    simp only [compute_robust_hausdorff]
    apply getD_zero_of_all_zero
    intro x hx
    have hx2 := (List.perm_insertionSort (fun a b : ℚ => a ≤ b) _).mem_iff.mp hx
    rcases List.mem_append.mp hx2 with h | h
    · exact hzero x h
    · exact hzero x h
  · show (metricRowFor v v sp lbl).volume_diff = 0
    simp only [metricRowFor]
    exact sub_self _

/-- Witness for claim C8: a 1 by 1 by 1 volume carrying label 17, compared
against itself at unit spacing. -/
theorem claim_self_comparison_witness :
    (17 : Int) ∈ ([17] : List Int) ∧ 0 < countLabel [[[17]]] 17 ∧
    (∃ rows, compute_metrics [[[17]]] [[[17]]] (1, 1, 1) [17] = some rows ∧
      metricRowFor [[[17]]] [[[17]]] (1, 1, 1) 17 ∈ rows ∧
      (metricRowFor [[[17]]] [[[17]]] (1, 1, 1) 17).dice = some 1 ∧
      (metricRowFor [[[17]]] [[[17]]] (1, 1, 1) 17).surface_dice = 1 ∧
      (metricRowFor [[[17]]] [[[17]]] (1, 1, 1) 17).hd95 = 0 ∧
      (metricRowFor [[[17]]] [[[17]]] (1, 1, 1) 17).volume_diff = 0 ∧
      (metricRowFor [[[17]]] [[[17]]] (1, 1, 1) 17).volume1 =
        (metricRowFor [[[17]]] [[[17]]] (1, 1, 1) 17).volume2) :=
  ⟨by decide, by decide,
    claim_self_comparison [[[17]]] (1, 1, 1) [17] 17 (by decide) (by decide)⟩

end BrainMri
